import Mathlib

/-!
Verification of the page-composition pipeline of the Pdf-n-up repository
(`src/pdf_processor.py`), against its natural-language specification.

The embedding below translates the processing logic of `PDFProcessor`
into Lean:

* a `Bitmap` is a rectangular grid of RGB channel triples together with
  its pixel dimensions (mirroring a PIL `Image`: `width`/`height` are the
  size reported by the image object, `rows` its pixel data);
* `invert_image_colors` mirrors `PDFProcessor.invert_image_colors`
  (lines 106-121): each channel value `v` becomes `255 - v`;
* `resize_image_to_fit` mirrors `PDFProcessor.resize_image_to_fit`
  (lines 221-241) on the dimension level.  The Python code computes
  `scale = min(max_width/width, max_height/height)` and
  `new = (int(width*scale), int(height*scale))` and then delegates the
  pixel resampling to the imaging library.  The library's `resize`
  rejects a target dimension `< 1` (its C core raises
  `ValueError: height and width must be > 0`), which the enclosing
  `try/except` turns into returning the original image unchanged;
  the embedding models exactly that control flow.  Real arithmetic is
  modelled with `ℚ`; the Python `int()` truncation agrees with the
  integer floor on the non-negative values that occur here;
* `pyChunks` mirrors the list comprehension
  `[all_pages[i:i+6] for i in range(0, len(all_pages), 6)]` (line 52 and
  lines 70-71): `range(0, L, 6)` enumerates `6*k` for `k < ceil(L/6)` and
  `l[i:i+6]` is `(l.drop i).take 6`;
* the grid geometry (`pageW`, `cellW`, `placeInCell`, `drawGroup`)
  mirrors `create_3x2_landscape_pdf` (lines 123-179), and `placeSingle`
  mirrors `create_original_layout_pdf` (lines 181-219).  Page sizes use
  reportlab's exact values: `mm = 72/25.4` points, `A4 = (210mm, 297mm)`,
  `landscape` swaps to `(max, min)`.
-/

/-- One RGB pixel: a triple of channel values (each 0-255 in valid data). -/
abbrev RGB : Type := ℕ × ℕ × ℕ

/-- A bitmap image: pixel dimensions plus the grid of RGB pixels.
Mirrors a PIL `Image` in 3-channel color form. -/
structure Bitmap where
  width : ℕ
  height : ℕ
  rows : List (List RGB)
deriving DecidableEq

/-- Channel inversion of one pixel: every channel value `v` becomes `255 - v`
(`ImageOps.invert` on an RGB image). -/
def invertPixel (c : RGB) : RGB :=
  (255 - c.1, 255 - c.2.1, 255 - c.2.2)

/-- `PDFProcessor.invert_image_colors` (src/pdf_processor.py lines 106-121):
invert every channel of every pixel.  The Python code first converts a
non-RGB image to RGB; a `Bitmap` of the data model is already the
3-channel form, on which the conversion is the identity. -/
def invert_image_colors (b : Bitmap) : Bitmap :=
  { b with rows := b.rows.map (fun row => row.map invertPixel) }

/-- `PDFProcessor.resize_image_to_fit` (src/pdf_processor.py lines 221-241),
dimension level.  Computes `scale_factor = min(max_width/width,
max_height/height)`, the floored new dimensions, and returns them — unless
the imaging library's `resize` rejects a degenerate (`< 1`) dimension, in
which case the `except` branch returns the original size unchanged. -/
def resize_image_to_fit (width height : ℕ) (max_width max_height : ℚ) : ℕ × ℕ :=
  let width_ratio : ℚ := max_width / width
  let height_ratio : ℚ := max_height / height
  let scale_factor : ℚ := min width_ratio height_ratio
  let new_width : ℤ := ⌊(width : ℚ) * scale_factor⌋
  let new_height : ℤ := ⌊(height : ℚ) * scale_factor⌋
  if new_width < 1 ∨ new_height < 1 then (width, height)
  else (new_width.toNat, new_height.toNat)

/-- reportlab's `mm` unit in points: `72 / 25.4`. -/
def mmQ : ℚ := 72 / (25.4 : ℚ)

/-- reportlab's `A4` page size in points, portrait `(width, height)`. -/
def A4 : ℚ × ℚ := (210 * mmQ, 297 * mmQ)

/-- reportlab's `landscape`: reorder a page size to `(max, min)`. -/
def landscapeQ (p : ℚ × ℚ) : ℚ × ℚ := (max p.1 p.2, min p.1 p.2)

/-- Grid-mode page width: `landscape(A4)[0]` (line 131). -/
def pageW : ℚ := (landscapeQ A4).1

/-- Grid-mode page height: `landscape(A4)[1]` (line 131). -/
def pageH : ℚ := (landscapeQ A4).2

/-- `cell_width = page_width / cols` with `cols = 2` (lines 135-136). -/
def cellW : ℚ := pageW / 2

/-- `cell_height = page_height / rows` with `rows = 3` (lines 135-137). -/
def cellH : ℚ := pageH / 3

/-- The fixed grid margin, 10 units each side (line 140). -/
def gridMargin : ℚ := 10

/-- `img_width = cell_width - 2 * margin` (line 141). -/
def imgW : ℚ := cellW - 2 * gridMargin

/-- `img_height = cell_height - 2 * margin` (line 142). -/
def imgH : ℚ := cellH - 2 * gridMargin

/-- One image drawn on an output page: position of its lower-left corner
(`drawImage(x, y)`) and its drawn pixel dimensions. -/
structure Placement where
  x : ℚ
  y : ℚ
  w : ℕ
  h : ℕ
deriving DecidableEq

/-- Placement of the image with cell index `i` inside
`create_3x2_landscape_pdf` (lines 150-170): `col = i % 2`, `row = i // 2`,
`x = col * cell_width + margin`,
`y = page_height - (row + 1) * cell_height + margin`, and the image is
resized to fit `(img_width, img_height)`. -/
def placeInCell (i : ℕ) (b : Bitmap) : Placement :=
  let col : ℕ := i % 2
  let row : ℕ := i / 2
  let x : ℚ := col * cellW + gridMargin
  let y : ℚ := pageH - (row + 1) * cellH + gridMargin
  let r := resize_image_to_fit b.width b.height imgW imgH
  ⟨x, y, r.1, r.2⟩

/-- The per-group drawing loop of `create_3x2_landscape_pdf`
(lines 146-170): `for i, page_image in enumerate(group): if i >= 6: break`,
started at index `i`. -/
def drawGroup : ℕ → List Bitmap → List Placement
  | _, [] => []
  | i, b :: rest => if 6 ≤ i then [] else placeInCell i b :: drawGroup (i + 1) rest

/-- Python's `[l[i:i+6] for i in range(0, len(l), 6)]` (line 52 and
lines 70-71): `range(0, L, 6)` is the `6*k` for `k < (L + 5) / 6`
(natural-number division, i.e. `ceil(L/6)`), and `l[i:i+6]` is
`(l.drop i).take 6`. -/
def pyChunks (l : List α) : List (List α) :=
  (List.range ((l.length + 5) / 6)).map (fun k => (l.drop (6 * k)).take 6)

/-- A composed output document: the ordered list of its output pages, each
an ordered list of image placements. -/
abbrev OutputDoc : Type := List (List Placement)

/-- `PDFProcessor.create_3x2_landscape_pdf` (lines 123-179): lay each group
out as one page.  `serFail` models the serialization call raising, which
the internal `except` turns into returning `None`. -/
def create_3x2_landscape_pdf (serFail : Bool) (page_groups : List (List Bitmap)) :
    Option OutputDoc :=
  if serFail then none else some (page_groups.map (drawGroup 0))

/-- Placement of one image by `create_original_layout_pdf` (lines 190-210):
margin 20, resize to fit `(page_width - 40, page_height - 40)`, then center
on the portrait A4 page. -/
def placeSingle (b : Bitmap) : Placement :=
  let r := resize_image_to_fit b.width b.height (A4.1 - 2 * 20) (A4.2 - 2 * 20)
  ⟨(A4.1 - r.1) / 2, (A4.2 - r.2) / 2, r.1, r.2⟩

/-- `PDFProcessor.create_original_layout_pdf` (lines 181-219): one output
page per bitmap, centered.  `serFail` as in `create_3x2_landscape_pdf`. -/
def create_original_layout_pdf (serFail : Bool) (pages : List Bitmap) :
    Option OutputDoc :=
  if serFail then none else some (pages.map (fun b => [placeSingle b]))

/-- One input of a batch run: the pages its rasterization yields (the
rendering of a PDF page to a pixmap and its decoding to an image are the
identity on the bitmap level), and whether `fitz.open` succeeds on it.
Openability is a property of the byte stream, so the two `fitz.open` calls
the source makes on the same path agree. -/
structure InputDoc where
  pages : List Bitmap
  openable : Bool
deriving DecidableEq

/-- Document-handle events of a run: each `fitz.open` that succeeds yields
a fresh handle id, each `doc.close()` releases one. -/
inductive Ev where
  | openDoc : ℕ → Ev
  | closeDoc : ℕ → Ev
deriving DecidableEq

/-- Per-page processing inside the rasterization loop (lines 40-43): invert
colors when requested, else keep the rendered bitmap. -/
def procPage (inv : Bool) (b : Bitmap) : Bitmap :=
  if inv then invert_image_colors b else b

/-- Step 1 of `process_pdfs` (lines 27-47): open each input in order,
rasterize and process its pages appending them to `all_pages`, close the
handle, move on.  An unopenable input raises, which aborts the loop (the
exception lands in the handler at lines 102-104).  Returns the
`all_pages` result (`none` on abort), the next fresh handle id, and the
handle events emitted. -/
def rasterLoop (inv : Bool) : List InputDoc → ℕ → Option (List Bitmap) × ℕ × List Ev
  | [], h => (some [], h, [])
  | d :: rest, h =>
    if d.openable then
      let r := rasterLoop inv rest (h + 1)
      (r.1.map (fun pgs => d.pages.map (procPage inv) ++ pgs), r.2.1,
        Ev.openDoc h :: Ev.closeDoc h :: r.2.2)
    else (none, h, [])

/-- The page-count pass of the no-merge branches (line 61 and line 89):
`pages_per_file = [len(fitz.open(path)) for path in pdf_paths]`.  Each
`fitz.open` emits an open event and the source never closes these
handles.  An unopenable input raises and aborts the comprehension. -/
def countLoop : List InputDoc → ℕ → Option (List ℕ) × ℕ × List Ev
  | [], h => (some [], h, [])
  | d :: rest, h =>
    if d.openable then
      let r := countLoop rest (h + 1)
      (r.1.map (fun ns => d.pages.length :: ns), r.2.1, Ev.openDoc h :: r.2.2)
    else (none, h, [])

/-- The shared shape of the two no-merge output loops (lines 64-77 and
lines 92-98): walk `pages_per_file` keeping `start_idx`, slice
`all_pages[start_idx:end_idx]`, compose and serialize the unit
(`compose`, whose first argument models the serialization call of that
unit raising), append the unit only when the serializer returned data
(`if pdf_data:`), and continue either way.  `call` numbers the
serialization calls of the run in order. -/
def mergeUnitLoop (compose : Bool → List Bitmap → Option OutputDoc) (serOk : ℕ → Bool)
    (all_pages : List Bitmap) : List ℕ → ℕ → ℕ → List OutputDoc
  | [], _, _ => []
  | n :: rest, start_idx, call =>
    match compose (!serOk call) ((all_pages.drop start_idx).take n) with
    | some d => d :: mergeUnitLoop compose serOk all_pages rest (start_idx + n) (call + 1)
    | none => mergeUnitLoop compose serOk all_pages rest (start_idx + n) (call + 1)

/-- `PDFProcessor.process_pdfs` (src/pdf_processor.py lines 17-104).
`serOk k` tells whether the `k`-th serialization call of the run succeeds
(a PDF byte stream is never empty, so a produced `pdf_data` is always
truthy).  Returns the result list together with the handle-event trace of
the run. -/
def process_pdfs (serOk : ℕ → Bool) (pdf_paths : List InputDoc)
    (invert_colors merge_files layout_3x2 : Bool) : List OutputDoc × List Ev :=
  let r := rasterLoop invert_colors pdf_paths 0
  match r.1 with
  | none => ([], r.2.2)
  | some all_pages =>
    if layout_3x2 then
      if merge_files then
        match create_3x2_landscape_pdf (!serOk 0) (pyChunks all_pages) with
        | some d => ([d], r.2.2)
        | none => ([], r.2.2)
      else
        let cnt := countLoop pdf_paths r.2.1
        match cnt.1 with
        | none => ([], r.2.2 ++ cnt.2.2)
        | some pages_per_file =>
          (mergeUnitLoop (fun sf slice => create_3x2_landscape_pdf sf (pyChunks slice))
              serOk all_pages pages_per_file 0 0,
            r.2.2 ++ cnt.2.2)
    else
      if merge_files then
        match create_original_layout_pdf (!serOk 0) all_pages with
        | some d => ([d], r.2.2)
        | none => ([], r.2.2)
      else
        let cnt := countLoop pdf_paths r.2.1
        match cnt.1 with
        | none => ([], r.2.2 ++ cnt.2.2)
        | some pages_per_file =>
          (mergeUnitLoop (fun sf slice => create_original_layout_pdf sf slice)
              serOk all_pages pages_per_file 0 0,
            r.2.2 ++ cnt.2.2)

/-- The pages a grid-mode merge unit composes from its bitmap slice:
chunk into groups of six, one output page per group. -/
def composeGridPure (slice : List Bitmap) : OutputDoc :=
  (pyChunks slice).map (drawGroup 0)

/-- The pages a single-image-mode merge unit composes from its bitmap
slice: one output page per bitmap. -/
def composeOrigPure (slice : List Bitmap) : OutputDoc :=
  slice.map (fun b => [placeSingle b])

/-- The output document a no-merge run owes to one input document:
its processed pages, composed in the selected layout mode. -/
def unitDoc (inv lay : Bool) (d : InputDoc) : OutputDoc :=
  if lay then composeGridPure (d.pages.map (procPage inv))
  else composeOrigPure (d.pages.map (procPage inv))

/-- Direct per-document description of what the no-merge loop returns:
one composed document per input whose serialization call succeeded, in
input order, skipping inputs whose serialization call failed.  `c` is the
index of the next serialization call. -/
def expectedUnits (composePure : List Bitmap → OutputDoc) (serOk : ℕ → Bool) (inv : Bool) :
    List InputDoc → ℕ → List OutputDoc
  | [], _ => []
  | d :: rest, c =>
    if serOk c then
      composePure (d.pages.map (procPage inv)) :: expectedUnits composePure serOk inv rest (c + 1)
    else expectedUnits composePure serOk inv rest (c + 1)

/-- The per-input bitmap-count sums that the no-merge loops accumulate as
`start_idx`: the boundary of file `k` in the combined page sequence. -/
def fileStart (pdf_paths : List InputDoc) (k : ℕ) : ℕ :=
  ((pdf_paths.take k).map (fun d => d.pages.length)).sum

section ChunkLemmas

variable {α : Type}

theorem pyChunks_nil : pyChunks ([] : List α) = [] := by
  simp [pyChunks]

/-- The chunk comprehension unfolds one slice at a time. -/
theorem pyChunks_cons (l : List α) (hl : l ≠ []) :
    pyChunks l = l.take 6 :: pyChunks (l.drop 6) := by
  have hpos : 0 < l.length := List.length_pos.mpr hl
  have hcount : (l.length + 5) / 6 = ((l.drop 6).length + 5) / 6 + 1 := by
    rw [List.length_drop]
    rcases le_or_lt 6 l.length with h6 | h6
    · have : l.length + 5 = (l.length - 6 + 5) + 6 := by omega
      rw [this, Nat.add_div_right _ (by norm_num)]
    · have h0 : l.length - 6 = 0 := by omega
      rw [h0]
      have : (l.length + 5) / 6 = 1 := Nat.div_eq_of_lt_le (by omega) (by omega)
      simp [this]
  unfold pyChunks
  rw [hcount, List.range_succ_eq_map, List.map_cons, List.map_map, List.length_drop]
  congr 1
  apply List.map_congr_left
  intro k hk
  simp only [Function.comp_apply, Nat.succ_eq_add_one]
  rw [List.drop_drop, show 6 * (k + 1) = 6 + 6 * k by ring]

theorem pyChunks_flatten (l : List α) : (pyChunks l).flatten = l := by
  by_cases hl : l = []
  · subst hl; rw [pyChunks_nil]; rfl
  · rw [pyChunks_cons l hl, List.flatten_cons, pyChunks_flatten (l.drop 6)]
    exact List.take_append_drop 6 l
termination_by l.length
decreasing_by
  simp only [List.length_drop]
  have : 0 < l.length := List.length_pos.mpr hl
  omega

theorem pyChunks_length (l : List α) : (pyChunks l).length = (l.length + 5) / 6 := by
  simp [pyChunks]

theorem pyChunks_dropLast_sizes (l : List α) :
    ∀ g ∈ (pyChunks l).dropLast, g.length = 6 := by
  by_cases hl : l = []
  · subst hl; simp [pyChunks_nil]
  · rw [pyChunks_cons l hl]
    by_cases hrest : l.drop 6 = []
    · rw [hrest, pyChunks_nil]
      simp
    · have hne : pyChunks (l.drop 6) ≠ [] := by
        intro hcontra
        have := pyChunks_flatten (l.drop 6)
        rw [hcontra] at this
        exact hrest this.symm
      intro g hg
      rw [List.dropLast_cons_of_ne_nil hne] at hg
      rcases List.mem_cons.mp hg with hg | hg
      · subst hg
        have h6 : 6 ≤ l.length := by
          by_contra hlt
          exact hrest (List.drop_eq_nil_of_le (by omega))
        simp only [List.length_take]
        omega
      · exact pyChunks_dropLast_sizes (l.drop 6) g hg
termination_by l.length
decreasing_by
  simp only [List.length_drop]
  have : 0 < l.length := List.length_pos.mpr hl
  omega

theorem pyChunks_last_size (l : List α) (hl : l ≠ []) :
    ((pyChunks l).getLastD []).length
      = if l.length % 6 = 0 then 6 else l.length % 6 := by
  have hpos : 0 < l.length := List.length_pos.mpr hl
  rw [pyChunks_cons l hl, List.getLastD_cons]
  by_cases hrest : l.drop 6 = []
  · have h6 : l.length ≤ 6 := by
      have := List.drop_eq_nil_iff.mp hrest
      omega
    rw [hrest, pyChunks_nil]
    simp only [List.getLastD, List.length_take]
    by_cases hz : l.length % 6 = 0
    · rw [if_pos hz]; omega
    · rw [if_neg hz]; omega
  · have hne : pyChunks (l.drop 6) ≠ [] := by
      intro hcontra
      have := pyChunks_flatten (l.drop 6)
      rw [hcontra] at this
      exact hrest this.symm
    have hdefault : (pyChunks (l.drop 6)).getLastD (l.take 6)
        = (pyChunks (l.drop 6)).getLastD [] := by
      simp [List.getLastD_eq_getLast?, List.getLast?_eq_getLast _ hne, Option.getD_some]
    rw [hdefault, pyChunks_last_size (l.drop 6) hrest, List.length_drop]
    have h6 : 6 ≤ l.length := by
      by_contra hlt
      exact hrest (List.drop_eq_nil_of_le (by omega))
    have hmod : (l.length - 6) % 6 = l.length % 6 := by
      conv_rhs => rw [show l.length = (l.length - 6) + 6 by omega]
      omega
    rw [hmod]
termination_by l.length
decreasing_by
  simp only [List.length_drop]
  omega

end ChunkLemmas

/-- C3.  Grid-mode grouping of a non-empty bitmap sequence of length `L`
produces `ceil(L/6)` (written `(L + 5) / 6`) PageGroups which are
consecutive slices of the sequence (their concatenation is the sequence),
all of size 6 except possibly the last, whose size is `L mod 6`
(6 when `L` is a multiple of 6). -/
theorem c3_grid_chunking (l : List Bitmap) (h : 0 < l.length) :
    (pyChunks l).length = (l.length + 5) / 6
    ∧ (pyChunks l).flatten = l
    ∧ (∀ g ∈ (pyChunks l).dropLast, g.length = 6)
    ∧ ((pyChunks l).getLastD []).length
        = (if l.length % 6 = 0 then 6 else l.length % 6) :=
  ⟨pyChunks_length l, pyChunks_flatten l, pyChunks_dropLast_sizes l,
    pyChunks_last_size l (List.length_pos.mp h)⟩

/-- A concrete 1×1 black bitmap. -/
def bm1 : Bitmap := ⟨1, 1, [[(0, 0, 0)]]⟩

/-- Witness for C3 at a 7-page sequence: 2 groups, of sizes 6 and 1. -/
theorem c3_grid_chunking_witness :
    0 < (List.replicate 7 bm1).length
    ∧ ((pyChunks (List.replicate 7 bm1)).length
          = ((List.replicate 7 bm1).length + 5) / 6
        ∧ (pyChunks (List.replicate 7 bm1)).flatten = List.replicate 7 bm1
        ∧ (∀ g ∈ (pyChunks (List.replicate 7 bm1)).dropLast, g.length = 6)
        ∧ ((pyChunks (List.replicate 7 bm1)).getLastD []).length
            = (if (List.replicate 7 bm1).length % 6 = 0 then 6
               else (List.replicate 7 bm1).length % 6)) :=
  ⟨by decide, c3_grid_chunking (List.replicate 7 bm1) (by decide)⟩

/-- Channel values of every pixel are at most 255 (the invariant of data
produced by 8-bit-per-channel rasterization). -/
def ChannelsValid (b : Bitmap) : Prop :=
  ∀ row ∈ b.rows, ∀ c ∈ row, c.1 ≤ 255 ∧ c.2.1 ≤ 255 ∧ c.2.2 ≤ 255

theorem invertPixel_invertPixel (c : RGB) (h1 : c.1 ≤ 255) (h2 : c.2.1 ≤ 255)
    (h3 : c.2.2 ≤ 255) : invertPixel (invertPixel c) = c := by
  obtain ⟨r, g, b⟩ := c
  simp only [invertPixel] at h1 h2 h3 ⊢
  refine Prod.ext ?_ (Prod.ext ?_ ?_) <;> simp <;> omega

/-- C6.  Color inversion is an involution on bitmaps with 8-bit channels:
each channel value `v ≤ 255` maps to `255 - v` and back to `v`, so
inverting twice restores the bitmap exactly. -/
theorem c6_invert_involution (b : Bitmap) (hb : ChannelsValid b) :
    invert_image_colors (invert_image_colors b) = b := by
  obtain ⟨w, h, rows⟩ := b
  simp only [invert_image_colors, List.map_map, Bitmap.mk.injEq, true_and]
  have hrows : ∀ row ∈ rows, (List.map invertPixel ∘ List.map invertPixel) row = row := by
    intro row hrow
    simp only [Function.comp_apply, List.map_map]
    have hpix : ∀ c ∈ row, (invertPixel ∘ invertPixel) c = c := by
      intro c hc
      obtain ⟨hc1, hc2, hc3⟩ := hb row hrow c hc
      exact invertPixel_invertPixel c hc1 hc2 hc3
    rw [List.map_congr_left hpix]
    simp
  rw [List.map_congr_left hrows]
  simp

/-- Witness for C6: a 1×2 bitmap with mixed channel values round-trips. -/
theorem c6_invert_involution_witness :
    ChannelsValid ⟨2, 1, [[(0, 128, 255), (17, 99, 3)]]⟩
    ∧ invert_image_colors (invert_image_colors ⟨2, 1, [[(0, 128, 255), (17, 99, 3)]]⟩)
        = ⟨2, 1, [[(0, 128, 255), (17, 99, 3)]]⟩ :=
  ⟨by simp only [ChannelsValid]; decide,
    c6_invert_involution ⟨2, 1, [[(0, 128, 255), (17, 99, 3)]]⟩
      (by simp only [ChannelsValid]; decide)⟩

/-- C9.  The scaler preserves positive dimensions: whichever branch is
taken (the computed floor sizes, or the fail-closed fallback to the
original image), both returned dimensions are positive. -/
theorem c9_scaler_positive_dims (w h : ℕ) (mw mh : ℚ) (hw : 0 < w) (hh : 0 < h)
    (hmw : 0 < mw) (hmh : 0 < mh) :
    0 < (resize_image_to_fit w h mw mh).1 ∧ 0 < (resize_image_to_fit w h mw mh).2 := by
  simp only [resize_image_to_fit]
  split_ifs with hc
  · exact ⟨hw, hh⟩
  · push_neg at hc
    obtain ⟨h1, h2⟩ := hc
    constructor <;> simp only [] <;> omega

/-- Witness for C9 at a degenerate target (1×1 image into a half-unit
box): the fallback keeps the dimensions positive. -/
theorem c9_scaler_positive_dims_witness :
    (0 < (1 : ℕ) ∧ 0 < (1 : ℕ) ∧ (0 : ℚ) < 1/2 ∧ (0 : ℚ) < 1/2)
    ∧ (0 < (resize_image_to_fit 1 1 (1/2) (1/2)).1
        ∧ 0 < (resize_image_to_fit 1 1 (1/2) (1/2)).2) :=
  ⟨⟨by norm_num, by norm_num, by norm_num, by norm_num⟩,
    c9_scaler_positive_dims 1 1 (1/2) (1/2) (by norm_num) (by norm_num)
      (by norm_num) (by norm_num)⟩

theorem drawGroup_length (g : List Bitmap) :
    ∀ i, (drawGroup i g).length = min g.length (6 - i) := by
  induction g with
  | nil => intro i; simp [drawGroup]
  | cons b rest ih =>
    intro i
    by_cases hi : 6 ≤ i
    · rw [drawGroup, if_pos hi]
      simp
      omega
    · rw [drawGroup, if_neg hi]
      simp only [List.length_cons, ih (i + 1)]
      omega

theorem drawGroup_take (g : List Bitmap) :
    ∀ i, drawGroup i g = drawGroup i (g.take (6 - i)) := by
  induction g with
  | nil => intro i; simp
  | cons b rest ih =>
    intro i
    by_cases hi : 6 ≤ i
    · rw [drawGroup, if_pos hi, show 6 - i = 0 by omega, List.take_zero, drawGroup]
    · rw [drawGroup, if_neg hi, show 6 - i = (6 - (i + 1)) + 1 by omega, List.take_succ_cons,
        drawGroup, if_neg hi, ih (i + 1)]

/-- C10.  The drawing loop of `create_3x2_landscape_pdf` places at most 6
images on a page: for every group it behaves exactly as on the group's
first 6 images (later ones are ignored, no error), so an oversized group
still yields one page with exactly the first 6 images placed. -/
theorem c10_at_most_six_per_page (group : List Bitmap) :
    (drawGroup 0 group).length = min group.length 6
    ∧ drawGroup 0 group = drawGroup 0 (group.take 6) := by
  constructor
  · rw [drawGroup_length group 0]
  · have h := drawGroup_take group 0
    simpa using h

section ProcessLemmas

/-- A run whose inputs are all openable rasterizes every page: the
combined sequence is the concatenation of each input's processed pages,
in input order then page order. -/
theorem rasterLoop_fst_all_open (inv : Bool) (docs : List InputDoc) :
    ∀ h : ℕ, (∀ d ∈ docs, d.openable = true) →
      (rasterLoop inv docs h).1
        = some ((docs.map (fun d => d.pages.map (procPage inv))).flatten) := by
  induction docs with
  | nil => intro h _; rfl
  | cons d rest ih =>
    intro h hopen
    have hd : d.openable = true := hopen d (List.mem_cons_self d rest)
    rw [rasterLoop, if_pos hd]
    simp only [ih (h + 1) (fun x hx => hopen x (List.mem_cons_of_mem d hx)),
      Option.map_some', List.map_cons, List.flatten_cons]

/-- A run with an unopenable input aborts rasterization. -/
theorem rasterLoop_fst_of_unopenable (inv : Bool) (docs : List InputDoc) :
    ∀ h : ℕ, (∃ d ∈ docs, d.openable = false) → (rasterLoop inv docs h).1 = none := by
  induction docs with
  | nil => intro h hbad; obtain ⟨d, hd, _⟩ := hbad; cases hd
  | cons d rest ih =>
    intro h hbad
    by_cases hd : d.openable = true
    · rw [rasterLoop, if_pos hd]
      have hrest : ∃ x ∈ rest, x.openable = false := by
        obtain ⟨x, hx, hxbad⟩ := hbad
        rcases List.mem_cons.mp hx with hx | hx
        · subst hx; rw [hd] at hxbad; cases hxbad
        · exact ⟨x, hx, hxbad⟩
      simp only [ih (h + 1) hrest, Option.map_none']
    · rw [rasterLoop, if_neg hd]

/-- The page-count pass over openable inputs yields each input's page
count, in input order. -/
theorem countLoop_fst_all_open (docs : List InputDoc) :
    ∀ h : ℕ, (∀ d ∈ docs, d.openable = true) →
      (countLoop docs h).1 = some (docs.map (fun d => d.pages.length)) := by
  induction docs with
  | nil => intro h _; rfl
  | cons d rest ih =>
    intro h hopen
    have hd : d.openable = true := hopen d (List.mem_cons_self d rest)
    rw [countLoop, if_pos hd]
    simp only [ih (h + 1) (fun x hx => hopen x (List.mem_cons_of_mem d hx)),
      Option.map_some', List.map_cons]

/-- The no-merge output loop, run over the page counts of the inputs on
the combined sequence (after any prefix already consumed), produces
exactly the per-document expected units: each `start_idx` slice recovers
that document's processed pages, and a unit is kept iff its serialization
call succeeds. -/
theorem mergeUnitLoop_eq (composePure : List Bitmap → OutputDoc)
    (compose : Bool → List Bitmap → Option OutputDoc)
    (hcomp : ∀ sf slice, compose sf slice = if sf then none else some (composePure slice))
    (serOk : ℕ → Bool) (inv : Bool) (docs : List InputDoc) :
    ∀ (pre : List Bitmap) (c : ℕ),
      mergeUnitLoop compose serOk
          (pre ++ (docs.map (fun d => d.pages.map (procPage inv))).flatten)
          (docs.map (fun d => d.pages.length)) pre.length c
        = expectedUnits composePure serOk inv docs c := by
  induction docs with
  | nil => intro pre c; rfl
  | cons d rest ih =>
    intro pre c
    have hslice :
        List.take d.pages.length (List.drop pre.length
            (pre ++ (d.pages.map (procPage inv)
              :: rest.map (fun x => x.pages.map (procPage inv))).flatten))
          = d.pages.map (procPage inv) := by
      rw [List.flatten_cons, List.drop_left,
        List.take_left' (by rw [List.length_map])]
    have hrearrange :
        pre ++ (d.pages.map (procPage inv)
            :: rest.map (fun x => x.pages.map (procPage inv))).flatten
          = (pre ++ d.pages.map (procPage inv))
              ++ (rest.map (fun x => x.pages.map (procPage inv))).flatten := by
      rw [List.flatten_cons, List.append_assoc]
    have hlen : pre.length + d.pages.length
        = (pre ++ d.pages.map (procPage inv)).length := by
      rw [List.length_append, List.length_map]
    simp only [List.map_cons, mergeUnitLoop]
    rw [hslice, hcomp]
    cases hs : serOk c with
    | true =>
      rw [if_neg (by simp : ¬((!true) = true))]
      simp only [expectedUnits, hs, if_true]
      rw [hrearrange, hlen, ih (pre ++ d.pages.map (procPage inv)) (c + 1)]
    | false =>
      rw [if_pos (by simp : (!false) = true)]
      simp only [expectedUnits, hs, Bool.false_eq_true, if_false]
      rw [hrearrange, hlen, ih (pre ++ d.pages.map (procPage inv)) (c + 1)]

end ProcessLemmas

/-- When every serialization call succeeds, the no-merge loop keeps every
unit: one per input document, in input order. -/
theorem expectedUnits_all_true (composePure : List Bitmap → OutputDoc)
    (serOk : ℕ → Bool) (inv : Bool) (docs : List InputDoc)
    (hser : ∀ k, serOk k = true) :
    ∀ c, expectedUnits composePure serOk inv docs c
      = docs.map (fun d => composePure (d.pages.map (procPage inv))) := by
  induction docs with
  | nil => intro c; rfl
  | cons d rest ih =>
    intro c
    simp only [expectedUnits, hser c, if_true, List.map_cons, ih (c + 1)]

/-- The composition function of the selected layout mode satisfies the
success/failure split that `mergeUnitLoop_eq` abstracts over. -/
theorem compose_split (lay : Bool) :
    ∀ (sf : Bool) (slice : List Bitmap),
      (if lay then fun sf slice => create_3x2_landscape_pdf sf (pyChunks slice)
       else fun sf slice => create_original_layout_pdf sf slice) sf slice
        = if sf then none
          else some ((if lay then composeGridPure else composeOrigPure) slice) := by
  intro sf slice
  cases lay <;> rfl

/-- `process_pdfs` with merging disabled, on openable inputs: the result is
the per-document expected units (kept iff the unit's serialization call
succeeded, in input order). -/
theorem process_pdfs_no_merge (serOk : ℕ → Bool) (inputs : List InputDoc)
    (inv lay : Bool) (hopen : ∀ d ∈ inputs, d.openable = true) :
    (process_pdfs serOk inputs inv false lay).1
      = expectedUnits (if lay then composeGridPure else composeOrigPure)
          serOk inv inputs 0 := by
  have hraster := rasterLoop_fst_all_open inv inputs 0 hopen
  have hcount := countLoop_fst_all_open inputs (rasterLoop inv inputs 0).2.1 hopen
  have hunits := mergeUnitLoop_eq (if lay then composeGridPure else composeOrigPure)
    (if lay then fun sf slice => create_3x2_landscape_pdf sf (pyChunks slice)
     else fun sf slice => create_original_layout_pdf sf slice)
    (compose_split lay) serOk inv inputs [] 0
  simp only [List.nil_append, List.length_nil] at hunits
  cases lay with
  | true =>
    simp only [process_pdfs, hraster, hcount, if_true, Bool.false_eq_true, if_false]
    simpa using hunits
  | false =>
    simp only [process_pdfs, hraster, hcount, Bool.false_eq_true, if_false]
    simpa using hunits

/-- `process_pdfs` with merging enabled, on openable inputs: one document
containing everything if the single serialization call succeeds, nothing
otherwise. -/
theorem process_pdfs_merge (serOk : ℕ → Bool) (inputs : List InputDoc)
    (inv lay : Bool) (hopen : ∀ d ∈ inputs, d.openable = true) :
    (process_pdfs serOk inputs inv true lay).1
      = if serOk 0 then
          [(if lay then composeGridPure else composeOrigPure)
            ((inputs.map (fun d => d.pages.map (procPage inv))).flatten)]
        else [] := by
  have hraster := rasterLoop_fst_all_open inv inputs 0 hopen
  cases lay with
  | true =>
    simp only [process_pdfs, hraster, if_true]
    cases hs : serOk 0 with
    | true =>
      rw [create_3x2_landscape_pdf, if_neg (by simp : ¬((!true) = true))]
      rfl
    | false =>
      rw [create_3x2_landscape_pdf, if_pos (by simp : (!false) = true)]
      rfl
  | false =>
    simp only [process_pdfs, hraster, Bool.false_eq_true, if_false]
    cases hs : serOk 0 with
    | true =>
      rw [create_original_layout_pdf, if_neg (by simp : ¬((!true) = true))]
      rfl
    | false =>
      rw [create_original_layout_pdf, if_pos (by simp : (!false) = true)]
      rfl

/-- `process_pdfs` with any unopenable input returns the empty list (the
exception from `fitz.open` reaches the outer handler). -/
theorem process_pdfs_unopenable (serOk : ℕ → Bool) (inputs : List InputDoc)
    (inv mrg lay : Bool) (hbad : ∃ d ∈ inputs, d.openable = false) :
    (process_pdfs serOk inputs inv mrg lay).1 = [] := by
  have hraster := rasterLoop_fst_of_unopenable inv inputs 0 hbad
  simp only [process_pdfs, hraster]

/-- C1 counterexample.  Two openable one-page inputs, merging disabled,
grid layout; the serialization call of the first merge unit fails and the
second succeeds.  The run returns 1 of the 2 merge units' documents — a
partial, non-empty result list — contradicting the claim that a
serialization failure always yields the empty list. -/
theorem c1_partial_result_counterexample :
    (process_pdfs (fun k => k != 0) [⟨[bm1], true⟩, ⟨[bm1], true⟩] true false true).1.length = 1
    ∧ ([(⟨[bm1], true⟩ : InputDoc), ⟨[bm1], true⟩].length = 2)
    ∧ (1 : ℕ) ≠ 0 ∧ (1 : ℕ) ≠ 2 := by
  refine ⟨by decide, by decide, by decide, by decide⟩

/-- C1 amended.  What actually holds: (a) a run with an unopenable input
returns the empty list; (b) a merge-mode run whose single serialization
call fails returns the empty list; (c) a no-merge run on openable inputs
returns exactly the units whose serialization call succeeded, in input
order — so when one unit's serialization fails and another's succeeds the
returned list is a proper, non-empty sublist of the merge units'
documents. -/
theorem c1_failure_result_characterization (serOk : ℕ → Bool) (inputs : List InputDoc)
    (inv mrg lay : Bool) :
    ((∃ d ∈ inputs, d.openable = false) →
        (process_pdfs serOk inputs inv mrg lay).1 = [])
    ∧ ((∀ d ∈ inputs, d.openable = true) → serOk 0 = false →
        (process_pdfs serOk inputs inv true lay).1 = [])
    ∧ ((∀ d ∈ inputs, d.openable = true) →
        (process_pdfs serOk inputs inv false lay).1
          = expectedUnits (if lay then composeGridPure else composeOrigPure)
              serOk inv inputs 0) := by
  refine ⟨fun hbad => process_pdfs_unopenable serOk inputs inv mrg lay hbad,
    fun hopen hser => ?_,
    fun hopen => process_pdfs_no_merge serOk inputs inv lay hopen⟩
  rw [process_pdfs_merge serOk inputs inv lay hopen, if_neg (by rw [hser]; decide)]

/-- Witness for C1 amended, all three conjuncts at concrete inputs. -/
theorem c1_failure_result_characterization_witness :
    (process_pdfs (fun _ => true) [⟨[bm1], false⟩] true true true).1 = []
    ∧ (process_pdfs (fun _ => false) [⟨[bm1], true⟩] true true true).1 = []
    ∧ (process_pdfs (fun k => k != 0) [⟨[bm1], true⟩, ⟨[bm1], true⟩] true false true).1
        = expectedUnits (if true then composeGridPure else composeOrigPure)
            (fun k => k != 0) true [⟨[bm1], true⟩, ⟨[bm1], true⟩] 0 :=
  ⟨(c1_failure_result_characterization (fun _ => true) [⟨[bm1], false⟩] true true true).1
      ⟨⟨[bm1], false⟩, by decide, rfl⟩,
    (c1_failure_result_characterization (fun _ => false) [⟨[bm1], true⟩] true true true).2.1
      (by decide) rfl,
    (c1_failure_result_characterization (fun k => k != 0)
        [⟨[bm1], true⟩, ⟨[bm1], true⟩] true false true).2.2 (by decide)⟩

/-- C7.  A run whose inputs all open, whose serialization calls all
succeed, and which processed at least one page: merging enabled returns
exactly one document; merging disabled returns exactly one document per
input, in input order. -/
theorem c7_merge_unit_counts (serOk : ℕ → Bool) (inputs : List InputDoc)
    (inv lay : Bool) (hopen : ∀ d ∈ inputs, d.openable = true)
    (hser : ∀ k, serOk k = true)
    (hpages : 0 < (inputs.map (fun d => d.pages.length)).sum) :
    (process_pdfs serOk inputs inv true lay).1.length = 1
    ∧ (process_pdfs serOk inputs inv false lay).1 = inputs.map (unitDoc inv lay)
    ∧ (process_pdfs serOk inputs inv false lay).1.length = inputs.length := by
  have hm := process_pdfs_merge serOk inputs inv lay hopen
  have hn := process_pdfs_no_merge serOk inputs inv lay hopen
  rw [expectedUnits_all_true _ serOk inv inputs hser 0] at hn
  have hnm : (process_pdfs serOk inputs inv false lay).1 = inputs.map (unitDoc inv lay) := by
    rw [hn]
    apply List.map_congr_left
    intro d _
    cases lay <;> rfl
  refine ⟨?_, hnm, ?_⟩
  · rw [hm, if_pos (hser 0)]
    rfl
  · rw [hnm, List.length_map]

/-- Witness for C7: one openable 1-page input, all serializations succeed. -/
theorem c7_merge_unit_counts_witness :
    ((∀ d ∈ [(⟨[bm1], true⟩ : InputDoc)], d.openable = true)
      ∧ (∀ k : ℕ, (fun _ => true) k = true)
      ∧ 0 < (([(⟨[bm1], true⟩ : InputDoc)]).map (fun d => d.pages.length)).sum)
    ∧ ((process_pdfs (fun _ => true) [⟨[bm1], true⟩] true true true).1.length = 1
        ∧ (process_pdfs (fun _ => true) [⟨[bm1], true⟩] true false true).1
            = ([(⟨[bm1], true⟩ : InputDoc)]).map (unitDoc true true)
        ∧ (process_pdfs (fun _ => true) [⟨[bm1], true⟩] true false true).1.length
            = ([(⟨[bm1], true⟩ : InputDoc)]).length) :=
  ⟨⟨by decide, fun _ => rfl, by decide⟩,
    c7_merge_unit_counts (fun _ => true) [⟨[bm1], true⟩] true true
      (by decide) (fun _ => rfl) (by decide)⟩

/-- C8 refutation on the code.  A no-merge run over one openable one-page
input: the rasterization pass opens handle 0 and closes it, but the
page-count pass (`len(fitz.open(path))`, line 61) opens handle 1 and the
run returns without ever closing it. -/
theorem c8_handle_leak :
    (process_pdfs (fun _ => true) [⟨[bm1], true⟩] true false true).2
      = [Ev.openDoc 0, Ev.closeDoc 0, Ev.openDoc 1]
    ∧ Ev.openDoc 1 ∈ (process_pdfs (fun _ => true) [⟨[bm1], true⟩] true false true).2
    ∧ Ev.closeDoc 1 ∉ (process_pdfs (fun _ => true) [⟨[bm1], true⟩] true false true).2 := by
  refine ⟨by decide, by decide, by decide⟩

/-- Extracting the `k`-th block of a concatenation: dropping the lengths
of the first `k` blocks and taking the `k`-th block's length recovers it. -/
theorem flatten_extract {β : Type} (L : List (List β)) :
    ∀ (k : ℕ) (hk : k < L.length),
      (L.flatten.drop (((L.take k).map List.length).sum)).take (L.get ⟨k, hk⟩).length
        = L.get ⟨k, hk⟩ := by
  induction L with
  | nil => intro k hk; cases hk
  | cons a t ih =>
    intro k hk
    cases k with
    | zero =>
      simp only [List.take_zero, List.map_nil, List.sum_nil, List.drop_zero,
        List.flatten_cons, List.get]
      exact List.take_left a t.flatten
    | succ k =>
      simp only [List.take_succ_cons, List.map_cons, List.sum_cons, List.flatten_cons,
        List.get]
      rw [← List.drop_drop, List.drop_left]
      exact ih k (Nat.lt_of_succ_lt_succ hk)

/-- C4.  On openable inputs the combined bitmap sequence built by the
rasterization pass has length `p1 + ... + pN`, equals the concatenation of
each document's processed pages in input order and page order, and the
per-file `start_idx` slices used by the no-merge branches recover exactly
each document's processed pages — no reordering anywhere. -/
theorem c4_page_order_invariant (inv : Bool) (pdf_paths : List InputDoc)
    (hopen : ∀ d ∈ pdf_paths, d.openable = true) :
    ∃ all_pages, (rasterLoop inv pdf_paths 0).1 = some all_pages
      ∧ all_pages.length = (pdf_paths.map (fun d => d.pages.length)).sum
      ∧ all_pages = (pdf_paths.map (fun d => d.pages.map (procPage inv))).flatten
      ∧ ∀ (k : ℕ) (hk : k < pdf_paths.length),
          (all_pages.drop (fileStart pdf_paths k)).take
              (pdf_paths.get ⟨k, hk⟩).pages.length
            = (pdf_paths.get ⟨k, hk⟩).pages.map (procPage inv) := by
  refine ⟨(pdf_paths.map (fun d => d.pages.map (procPage inv))).flatten,
    rasterLoop_fst_all_open inv pdf_paths 0 hopen, ?_, rfl, ?_⟩
  · rw [List.length_flatten, List.map_map]
    congr 1
    apply List.map_congr_left
    intro d _
    simp
  · intro k hk
    have hstart : fileStart pdf_paths k
        = (((pdf_paths.map (fun d => d.pages.map (procPage inv))).take k).map
            List.length).sum := by
      rw [fileStart, ← List.map_take, List.map_map]
      congr 1
      apply List.map_congr_left
      intro d _
      simp
    have hget : (pdf_paths.map (fun d => d.pages.map (procPage inv))).get
          ⟨k, by rw [List.length_map]; exact hk⟩
        = (pdf_paths.get ⟨k, hk⟩).pages.map (procPage inv) := List.get_map _
    have hlen : ((pdf_paths.get ⟨k, hk⟩).pages.map (procPage inv)).length
        = (pdf_paths.get ⟨k, hk⟩).pages.length := List.length_map _ _
    rw [hstart, ← hlen, ← hget]
    exact flatten_extract (pdf_paths.map (fun d => d.pages.map (procPage inv))) k
      (by rw [List.length_map]; exact hk)

/-- Witness for C4 at two concrete openable inputs with 2 and 1 pages. -/
theorem c4_page_order_invariant_witness :
    (∀ d ∈ [(⟨[bm1, bm1], true⟩ : InputDoc), ⟨[bm1], true⟩], d.openable = true)
    ∧ ∃ all_pages,
        (rasterLoop true [(⟨[bm1, bm1], true⟩ : InputDoc), ⟨[bm1], true⟩] 0).1
            = some all_pages
        ∧ all_pages.length
            = (([(⟨[bm1, bm1], true⟩ : InputDoc), ⟨[bm1], true⟩]).map
                (fun d => d.pages.length)).sum
        ∧ all_pages
            = (([(⟨[bm1, bm1], true⟩ : InputDoc), ⟨[bm1], true⟩]).map
                (fun d => d.pages.map (procPage true))).flatten
        ∧ ∀ (k : ℕ)
            (hk : k < ([(⟨[bm1, bm1], true⟩ : InputDoc), ⟨[bm1], true⟩]).length),
            (all_pages.drop
                (fileStart [(⟨[bm1, bm1], true⟩ : InputDoc), ⟨[bm1], true⟩] k)).take
                (([(⟨[bm1, bm1], true⟩ : InputDoc), ⟨[bm1], true⟩]).get
                  ⟨k, hk⟩).pages.length
              = (([(⟨[bm1, bm1], true⟩ : InputDoc), ⟨[bm1], true⟩]).get
                  ⟨k, hk⟩).pages.map (procPage true) :=
  ⟨by decide,
    c4_page_order_invariant true [⟨[bm1, bm1], true⟩, ⟨[bm1], true⟩] (by decide)⟩

/-- Evaluation rule for the scaler when both floored dimensions are
non-degenerate. -/
theorem resize_eval_ok (w h : ℕ) (mw mh : ℚ) (a b : ℤ)
    (ha : ⌊(w : ℚ) * min (mw / w) (mh / h)⌋ = a)
    (hb : ⌊(h : ℚ) * min (mw / w) (mh / h)⌋ = b)
    (h1 : 1 ≤ a) (h2 : 1 ≤ b) :
    resize_image_to_fit w h mw mh = (a.toNat, b.toNat) := by
  simp only [resize_image_to_fit, ha, hb]
  rw [if_neg (by omega)]

/-- Evaluation rule for the scaler when a floored dimension degenerates:
the library call raises and the original size is returned. -/
theorem resize_eval_fb (w h : ℕ) (mw mh : ℚ)
    (hc : ⌊(w : ℚ) * min (mw / w) (mh / h)⌋ < 1
      ∨ ⌊(h : ℚ) * min (mw / w) (mh / h)⌋ < 1) :
    resize_image_to_fit w h mw mh = (w, h) := by
  simp only [resize_image_to_fit]
  rw [if_pos hc]

/-- The floored scaled dimension never exceeds the corresponding target
bound `mx`, provided the scale is at most `mx / n`. -/
theorem cast_toNat_floor_le (n : ℕ) (hn : 0 < n) (s mx : ℚ)
    (hfl : 0 ≤ ⌊(n : ℚ) * s⌋) (hs : s ≤ mx / (n : ℚ)) :
    ((⌊(n : ℚ) * s⌋.toNat : ℕ) : ℚ) ≤ mx := by
  have hn0 : (0 : ℚ) < n := by exact_mod_cast hn
  have hcast : ((⌊(n : ℚ) * s⌋.toNat : ℕ) : ℚ) = ((⌊(n : ℚ) * s⌋ : ℤ) : ℚ) := by
    exact_mod_cast Int.toNat_of_nonneg hfl
  rw [hcast]
  calc ((⌊(n : ℚ) * s⌋ : ℤ) : ℚ) ≤ (n : ℚ) * s := Int.floor_le _
    _ ≤ (n : ℚ) * (mx / n) := mul_le_mul_of_nonneg_left hs (le_of_lt hn0)
    _ = mx := by field_simp

/-- Rounding bound: the floored dimensions change the aspect ratio by less
than `(w + h) / (B * h)` where `B` is the floored height. -/
theorem floor_ratio_approx (w h : ℕ) (s : ℚ) (hw : 0 < w) (hh : 0 < h)
    (hA : 1 ≤ ⌊(w : ℚ) * s⌋) (hB : 1 ≤ ⌊(h : ℚ) * s⌋) :
    |((⌊(w : ℚ) * s⌋ : ℚ)) / ((⌊(h : ℚ) * s⌋ : ℚ)) - (w : ℚ) / (h : ℚ)|
      < ((w : ℚ) + (h : ℚ)) / (((⌊(h : ℚ) * s⌋ : ℚ)) * (h : ℚ)) := by
  have ha1 : (1 : ℚ) ≤ (⌊(w : ℚ) * s⌋ : ℚ) := by exact_mod_cast hA
  have hb1 : (1 : ℚ) ≤ (⌊(h : ℚ) * s⌋ : ℚ) := by exact_mod_cast hB
  have hb0 : (0 : ℚ) < (⌊(h : ℚ) * s⌋ : ℚ) := by linarith
  have hh0 : (0 : ℚ) < h := by exact_mod_cast hh
  have hw0 : (0 : ℚ) < w := by exact_mod_cast hw
  have haup : ((⌊(w : ℚ) * s⌋ : ℚ)) ≤ (w : ℚ) * s := Int.floor_le _
  have halow : (w : ℚ) * s - 1 < (⌊(w : ℚ) * s⌋ : ℚ) := Int.sub_one_lt_floor _
  have hbup : ((⌊(h : ℚ) * s⌋ : ℚ)) ≤ (h : ℚ) * s := Int.floor_le _
  have hblow : (h : ℚ) * s - 1 < (⌊(h : ℚ) * s⌋ : ℚ) := Int.sub_one_lt_floor _
  rw [div_sub_div _ _ (ne_of_gt hb0) (ne_of_gt hh0), abs_div,
    abs_of_pos (mul_pos hb0 hh0)]
  apply (div_lt_div_iff_of_pos_right (mul_pos hb0 hh0)).mpr
  rw [abs_lt]
  constructor
  · nlinarith [mul_le_mul_of_nonneg_right hbup (le_of_lt hw0),
      mul_lt_mul_of_pos_right halow hh0]
  · nlinarith [mul_le_mul_of_nonneg_right haup (le_of_lt hh0),
      mul_lt_mul_of_pos_right hblow hw0]

/-- C5 counterexample.  A 1×1 bitmap into the positive target box
(1/2, 1/2): the claimed result `(floor(w*scale), floor(h*scale))` is
`(0, 0)`, but the code returns the original size `(1, 1)` (the library
rejects the degenerate resize and the fallback keeps the bitmap), and the
returned width exceeds the box even though `maxWidth/w ≤ 1` and
`maxHeight/h ≤ 1`. -/
theorem c5_scaler_formula_counterexample :
    resize_image_to_fit 1 1 (1/2) (1/2) = (1, 1)
    ∧ ⌊((1 : ℕ) : ℚ) * min ((1/2 : ℚ) / ((1 : ℕ) : ℚ)) ((1/2 : ℚ) / ((1 : ℕ) : ℚ))⌋ = 0
    ∧ ((1/2 : ℚ) / ((1 : ℕ) : ℚ) ≤ 1 ∧ (1/2 : ℚ) / ((1 : ℕ) : ℚ) ≤ 1)
    ∧ ¬(((resize_image_to_fit 1 1 (1/2) (1/2)).1 : ℚ) ≤ 1/2) := by
  have hf : ⌊((1 : ℕ) : ℚ) * min ((1/2 : ℚ) / ((1 : ℕ) : ℚ)) ((1/2 : ℚ) / ((1 : ℕ) : ℚ))⌋
      = 0 := by
    push_cast
    norm_num
  have hres : resize_image_to_fit 1 1 (1/2) (1/2) = (1, 1) :=
    resize_eval_fb 1 1 (1/2) (1/2) (Or.inl (by rw [hf]; norm_num))
  refine ⟨hres, hf, ⟨by push_cast; norm_num, by push_cast; norm_num⟩, ?_⟩
  rw [hres]
  push_cast
  norm_num

/-- C5 amended.  When neither floored dimension degenerates (the proviso
the counterexample forces), the scaler returns exactly
`(floor(w*scale), floor(h*scale))` with `scale = min(maxW/w, maxH/h)`;
under the claim's downscale guard the result fits the target box; and the
aspect ratio is preserved within an explicit rounding bound that vanishes
as the result grows. -/
theorem c5_scaler_amended (w h : ℕ) (mw mh : ℚ) (hw : 0 < w) (hh : 0 < h)
    (hmw : 0 < mw) (hmh : 0 < mh)
    (h1 : 1 ≤ ⌊(w : ℚ) * min (mw / w) (mh / h)⌋)
    (h2 : 1 ≤ ⌊(h : ℚ) * min (mw / w) (mh / h)⌋) :
    resize_image_to_fit w h mw mh
        = ((⌊(w : ℚ) * min (mw / w) (mh / h)⌋).toNat,
           (⌊(h : ℚ) * min (mw / w) (mh / h)⌋).toNat)
    ∧ (mw / w ≤ 1 → mh / h ≤ 1 →
        ((resize_image_to_fit w h mw mh).1 : ℚ) ≤ mw
        ∧ ((resize_image_to_fit w h mw mh).2 : ℚ) ≤ mh)
    ∧ |(((resize_image_to_fit w h mw mh).1 : ℚ))
          / (((resize_image_to_fit w h mw mh).2 : ℚ)) - (w : ℚ) / (h : ℚ)|
        < ((w : ℚ) + (h : ℚ))
            / ((((resize_image_to_fit w h mw mh).2 : ℚ)) * (h : ℚ)) := by
  have heq : resize_image_to_fit w h mw mh
      = ((⌊(w : ℚ) * min (mw / w) (mh / h)⌋).toNat,
         (⌊(h : ℚ) * min (mw / w) (mh / h)⌋).toNat) :=
    resize_eval_ok w h mw mh _ _ rfl rfl h1 h2
  have hfst : ((resize_image_to_fit w h mw mh).1 : ℚ)
      = ((⌊(w : ℚ) * min (mw / w) (mh / h)⌋ : ℤ) : ℚ) := by
    rw [heq]
    exact_mod_cast Int.toNat_of_nonneg (by omega)
  have hsnd : ((resize_image_to_fit w h mw mh).2 : ℚ)
      = ((⌊(h : ℚ) * min (mw / w) (mh / h)⌋ : ℤ) : ℚ) := by
    rw [heq]
    exact_mod_cast Int.toNat_of_nonneg (by omega)
  refine ⟨heq, fun _ _ => ⟨?_, ?_⟩, ?_⟩
  · rw [heq]
    exact cast_toNat_floor_le w hw _ mw (by omega) (min_le_left _ _)
  · rw [heq]
    exact cast_toNat_floor_le h hh _ mh (by omega) (min_le_right _ _)
  · rw [hfst, hsnd]
    exact floor_ratio_approx w h (min (mw / w) (mh / h)) hw hh h1 h2

/-- Witness for C5 amended at a 4×2 bitmap into a 2×2 box: the result is
exactly (2, 1), inside the box. -/
theorem c5_scaler_amended_witness :
    (1 ≤ ⌊((4 : ℕ) : ℚ) * min ((2 : ℚ) / ((4 : ℕ) : ℚ)) ((2 : ℚ) / ((2 : ℕ) : ℚ))⌋
      ∧ 1 ≤ ⌊((2 : ℕ) : ℚ) * min ((2 : ℚ) / ((4 : ℕ) : ℚ)) ((2 : ℚ) / ((2 : ℕ) : ℚ))⌋)
    ∧ resize_image_to_fit 4 2 2 2 = (2, 1)
    ∧ ((resize_image_to_fit 4 2 2 2).1 : ℚ) ≤ 2
    ∧ ((resize_image_to_fit 4 2 2 2).2 : ℚ) ≤ 2 := by
  have hmin : min ((2 : ℚ) / ((4 : ℕ) : ℚ)) ((2 : ℚ) / ((2 : ℕ) : ℚ)) = 1/2 := by
    push_cast
    norm_num
  have hf1 : ⌊((4 : ℕ) : ℚ) * min ((2 : ℚ) / ((4 : ℕ) : ℚ)) ((2 : ℚ) / ((2 : ℕ) : ℚ))⌋
      = 2 := by
    rw [hmin]
    push_cast
    norm_num
  have hf2 : ⌊((2 : ℕ) : ℚ) * min ((2 : ℚ) / ((4 : ℕ) : ℚ)) ((2 : ℚ) / ((2 : ℕ) : ℚ))⌋
      = 1 := by
    rw [hmin]
    push_cast
    norm_num
  have happ := c5_scaler_amended 4 2 2 2 (by norm_num) (by norm_num) (by norm_num)
    (by norm_num) (by rw [hf1]; norm_num) (by rw [hf2])
  have hbox := happ.2.1 (by norm_num) (by norm_num)
  refine ⟨⟨by rw [hf1]; norm_num, by rw [hf2]⟩, ?_, hbox.1, hbox.2⟩
  rw [happ.1, hf1, hf2]
  rfl

theorem cellW_eq : cellW = 53460 / 127 := by
  rw [cellW, pageW, landscapeQ, A4, mmQ]
  norm_num [max_def]

theorem cellH_eq : cellH = 25200 / 127 := by
  rw [cellH, pageH, landscapeQ, A4, mmQ]
  norm_num [min_def]

theorem imgW_eq : imgW = 50920 / 127 := by
  rw [imgW, gridMargin, cellW_eq]
  norm_num

theorem imgH_eq : imgH = 22660 / 127 := by
  rw [imgH, gridMargin, cellH_eq]
  norm_num

/-- A concrete 1×2 (tall) black bitmap. -/
def bmTall : Bitmap := ⟨1, 2, [[(0, 0, 0)], [(0, 0, 0)]]⟩

theorem minTall_eq :
    min (imgW / ((1 : ℕ) : ℚ)) (imgH / ((2 : ℕ) : ℚ)) = 11330 / 127 := by
  rw [imgW_eq, imgH_eq]
  push_cast
  norm_num

theorem floorTallW_eq :
    ⌊((1 : ℕ) : ℚ) * min (imgW / ((1 : ℕ) : ℚ)) (imgH / ((2 : ℕ) : ℚ))⌋ = 89 := by
  rw [minTall_eq]
  push_cast
  norm_num

theorem floorTallH_eq :
    ⌊((2 : ℕ) : ℚ) * min (imgW / ((1 : ℕ) : ℚ)) (imgH / ((2 : ℕ) : ℚ))⌋ = 178 := by
  rw [minTall_eq]
  push_cast
  norm_num

theorem resizeTall_eq : resize_image_to_fit 1 2 imgW imgH = (89, 178) := by
  have h := resize_eval_ok 1 2 imgW imgH 89 178 floorTallW_eq floorTallH_eq
    (by norm_num) (by norm_num)
  simpa using h

/-- C2 counterexample.  A tall 1×2 bitmap in cell 0: its scaled width is
89 while the inner cell width is 50920/127 ≈ 401, yet the code draws it at
`x = margin` (10), not at the centered
`x = col*cellW + (cellW - width)/2 ≈ 166`: grid placement is not
horizontally centered within the cell. -/
theorem c2_not_centered_counterexample :
    (placeInCell 0 bmTall).x = gridMargin
    ∧ (placeInCell 0 bmTall).w = 89
    ∧ (placeInCell 0 bmTall).x
        ≠ (((0 % 2 : ℕ)) : ℚ) * cellW + (cellW - ((placeInCell 0 bmTall).w : ℚ)) / 2 := by
  have hres : resize_image_to_fit bmTall.width bmTall.height imgW imgH = (89, 178) :=
    resizeTall_eq
  have hx : (placeInCell 0 bmTall).x = gridMargin := by
    simp only [placeInCell]
    norm_num
  have hw : (placeInCell 0 bmTall).w = 89 := by
    simp only [placeInCell, hres]
  refine ⟨hx, hw, ?_⟩
  rw [hx, hw, cellW_eq, gridMargin]
  push_cast
  norm_num

/-- C2 amended.  In grid mode a bitmap at cell index `i < 6` (with
non-degenerate scaled dimensions, the proviso C5's counterexample forces)
is placed in column `i mod 2`, row `i div 2` (top-to-bottom,
left-to-right), scaled to fit the cell minus the 10-unit margins — but it
is drawn at the margin offset from the cell's lower-left corner, not
centered within the cell. -/
theorem c2_grid_placement_amended (i : ℕ) (b : Bitmap) (hi : i < 6)
    (hw : 0 < b.width) (hh : 0 < b.height)
    (h1 : 1 ≤ ⌊(b.width : ℚ) * min (imgW / b.width) (imgH / b.height)⌋)
    (h2 : 1 ≤ ⌊(b.height : ℚ) * min (imgW / b.width) (imgH / b.height)⌋) :
    (placeInCell i b).x = (((i % 2 : ℕ)) : ℚ) * cellW + gridMargin
    ∧ (placeInCell i b).y = pageH - (((i / 2 : ℕ) : ℚ) + 1) * cellH + gridMargin
    ∧ (placeInCell i b).w
        = (⌊(b.width : ℚ) * min (imgW / b.width) (imgH / b.height)⌋).toNat
    ∧ (placeInCell i b).h
        = (⌊(b.height : ℚ) * min (imgW / b.width) (imgH / b.height)⌋).toNat
    ∧ ((placeInCell i b).w : ℚ) ≤ imgW
    ∧ ((placeInCell i b).h : ℚ) ≤ imgH := by
  have heq := resize_eval_ok b.width b.height imgW imgH _ _ rfl rfl h1 h2
  simp only [placeInCell, heq]
  refine ⟨trivial, trivial, trivial, trivial, ?_, ?_⟩
  · exact cast_toNat_floor_le b.width hw _ imgW (by omega) (min_le_left _ _)
  · exact cast_toNat_floor_le b.height hh _ imgH (by omega) (min_le_right _ _)

/-- Witness for C2 amended at cell 0 with the tall 1×2 bitmap. -/
theorem c2_grid_placement_amended_witness :
    ((0 : ℕ) < 6 ∧ 0 < bmTall.width ∧ 0 < bmTall.height
      ∧ 1 ≤ ⌊(bmTall.width : ℚ) * min (imgW / bmTall.width) (imgH / bmTall.height)⌋
      ∧ 1 ≤ ⌊(bmTall.height : ℚ) * min (imgW / bmTall.width) (imgH / bmTall.height)⌋)
    ∧ ((placeInCell 0 bmTall).x = (((0 % 2 : ℕ)) : ℚ) * cellW + gridMargin
      ∧ (placeInCell 0 bmTall).w = 89
      ∧ ((placeInCell 0 bmTall).w : ℚ) ≤ imgW
      ∧ ((placeInCell 0 bmTall).h : ℚ) ≤ imgH) := by
  have hwid : bmTall.width = 1 := rfl
  have hhei : bmTall.height = 2 := rfl
  have h1 : 1 ≤ ⌊(bmTall.width : ℚ) * min (imgW / bmTall.width) (imgH / bmTall.height)⌋ := by
    rw [hwid, hhei, floorTallW_eq]
    norm_num
  have h2 : 1 ≤ ⌊(bmTall.height : ℚ) * min (imgW / bmTall.width) (imgH / bmTall.height)⌋ := by
    rw [hwid, hhei, floorTallH_eq]
    norm_num
  have happ := c2_grid_placement_amended 0 bmTall (by norm_num) (by decide) (by decide) h1 h2
  refine ⟨⟨by norm_num, by decide, by decide, h1, h2⟩,
    happ.1, ?_, happ.2.2.2.2.1, happ.2.2.2.2.2⟩
  rw [happ.2.2.1, hwid, hhei, floorTallW_eq]
  rfl
